import Mathlib

/-!
# Verification of the Stagenix backend job-queue subsystem (`app.py`)

A shallow embedding of the job lifecycle manager of `app.py`:
the in-memory job store (`JOBS`), job creation (`new_job` / the
`/generate` route), atomic claiming (`next_queued_job_and_claim`),
completion (`update_job_done`, the `/job/<id>/complete` route),
failure (`update_job_failed`), and result retrieval (`/result/<id>`).

Modelling decisions:
* The Python store `JOBS` is a `dict` (insertion-ordered in CPython 3.7+);
  `for job in JOBS.values()` scans in insertion order.  We model the store
  as a `List Job` in insertion order; `JOBS.get(job_id)` is `List.find?`
  and `JOBS[job_id] = job` replaces in place when the key exists and
  appends otherwise.
* `time.time()` and `uuid.uuid4().hex` are external inputs; every
  operation takes the timestamp (a `Nat`) and, for creation, the generated
  id (a `String`) as explicit parameters.  Freshness of generated uuids is
  a hypothesis where a claim needs it.
* `random.uniform(-1, 1)` in the prompt heuristic is an external input,
  modelled as an oracle `Nat → ℚ` consumed left to right (two draws per
  placed object); nothing proved here depends on the drawn values.
* Every function body that runs under `JOBS_LOCK` in the Python source is
  a single atomic operation here; the lock serializes them, so any
  concurrent execution is one of the sequential interleavings of these
  atomic steps.
-/

/-- The value stored in `job["result"]` by `update_job_done` and by the
URL branch of `job_complete`: `{"file": ..., "url": ...}`, where `file`
is a filename or Python `None`. -/
structure JobResult where
  file : Option String
  url : String
  deriving DecidableEq, Repr

/-- One record of the `JOBS` dict, with the exact fields written by
`new_job`.  Fields that `new_job` initialises to Python `None` are
`Option`s.  `status` is a string, as in the source
(`"queued" | "running" | "done" | "failed"`). -/
structure Job where
  id : String
  prompt : String
  meta : List (String × String)
  status : String
  created_at : Nat
  started_at : Option Nat
  finished_at : Option Nat
  result : Option JobResult
  worker_id : Option String
  error : Option String
  deriving DecidableEq, Repr

/-- The job store: the `JOBS` dict, as a list of records in insertion
order. -/
abbrev State := List Job

/-- `JOBS.get(job_id)`. -/
def getJob (s : State) (job_id : String) : Option Job :=
  s.find? (fun j => j.id = job_id)

/-- `JOBS[job_id] = job`: replace in place when the key exists, append
otherwise (CPython dict assignment keeps the original position of an
existing key). -/
def putJob (s : State) (j : Job) : State :=
  if s.any (fun k => k.id = j.id) then
    s.map (fun k => if k.id = j.id then j else k)
  else
    s ++ [j]

/-- Update the record stored under `job_id` in place (the Python code
mutates the dict value it got from `JOBS.get`/iteration). -/
def mutateJob (s : State) (job_id : String) (f : Job → Job) : State :=
  s.map (fun k => if k.id = job_id then f k else k)

/-- `new_job(prompt, meta)` of `app.py`: build the fresh record and store
it under its id.  The generated `uuid4().hex` and `time.time()` are the
explicit parameters `job_id` and `t`.  Returns the new store and the
record, as the Python function returns `job`. -/
def new_job (s : State) (job_id prompt : String) (meta : List (String × String))
    (t : Nat) : State × Job :=
  let job : Job :=
    { id := job_id, prompt := prompt, meta := meta, status := "queued"
      created_at := t, started_at := none, finished_at := none
      result := none, worker_id := none, error := none }
  (putJob s job, job)

/-- The three field writes performed on a claimed job by
`next_queued_job_and_claim`. -/
def claimedJob (worker_id : String) (t : Nat) (j : Job) : Job :=
  { j with status := "running", started_at := some t,
           worker_id := some worker_id }

/-- The loop body of `next_queued_job_and_claim`: scan the records in
insertion order, transition the first one with status `"queued"` to
`"running"` (setting `started_at` and `worker_id`), and return it;
return `none` and leave the list unchanged when no record is queued. -/
def claimScan (worker_id : String) (t : Nat) : List Job → List Job × Option Job
  | [] => ([], none)
  | j :: rest =>
    if j.status = "queued" then
      (claimedJob worker_id t j :: rest, some (claimedJob worker_id t j))
    else
      let p := claimScan worker_id t rest
      (j :: p.1, p.2)

/-- `next_queued_job_and_claim(worker_id)` of `app.py`: atomically (under
`JOBS_LOCK`) claim the first queued job. -/
def next_queued_job_and_claim (s : State) (worker_id : String) (t : Nat) :
    State × Option Job :=
  claimScan worker_id t s

/-- `update_job_done(job_id, result_filename)` of `app.py`: if the id is
unknown return `None` and change nothing; otherwise set status `"done"`,
`finished_at`, and `result = {"file": result_filename,
"url": "/result/" + job_id}` on the stored record, returning it.
`markDone` is the set of field writes it performs. -/
def markDone (result_filename job_id : String) (t : Nat) (j : Job) : Job :=
  { j with status := "done", finished_at := some t,
           result := some ⟨some result_filename, "/result/" ++ job_id⟩ }

/-- See `markDone`. -/
def update_job_done (s : State) (job_id result_filename : String) (t : Nat) :
    State × Option Job :=
  match getJob s job_id with
  | none => (s, none)
  | some _ =>
    let s' := mutateJob s job_id (markDone result_filename job_id t)
    (s', getJob s' job_id)

/-- `update_job_failed(job_id, error_msg)` of `app.py`: if the id is
unknown return `None` and change nothing; otherwise set status
`"failed"`, `finished_at`, and `error` on the stored record, returning
it.  `markFailed` is the set of field writes it performs. -/
def markFailed (error_msg : String) (t : Nat) (j : Job) : Job :=
  { j with status := "failed", finished_at := some t,
           error := some error_msg }

/-- See `markFailed`. -/
def update_job_failed (s : State) (job_id error_msg : String) (t : Nat) :
    State × Option Job :=
  match getJob s job_id with
  | none => (s, none)
  | some _ =>
    let s' := mutateJob s job_id (markFailed error_msg t)
    (s', getJob s' job_id)

/-- Response of the `/generate` route. -/
inductive GenerateResp
  | badRequest (error : String)
  | created (job_id : String)
  deriving DecidableEq, Repr

/-- The `/generate` route of `app.py`: `prompt = body.get("prompt")`;
`if not prompt:` answer 400 `{"error": "missing prompt"}`; otherwise call
`new_job` and answer 201 `{"job_id": job["id"]}`.  An absent key is
`none`; the empty string is the only falsy string. -/
def generate (s : State) (prompt : Option String) (meta : List (String × String))
    (job_id : String) (t : Nat) : State × GenerateResp :=
  match prompt with
  | none => (s, .badRequest "missing prompt")
  | some p =>
    if p = "" then (s, .badRequest "missing prompt")
    else
      let r := new_job s job_id p meta t
      (r.1, .created r.2.id)

/-- Python `str.split()` (no separator): split on runs of whitespace and
drop empty pieces.  The ASCII whitespace characters recognised by Python
are space, tab, newline, carriage return, vertical tab and form feed. -/
def pyStrSplit (l : List Char) : List (List Char) :=
  (List.splitOnP
    (fun c => c == ' ' || c == '\t' || c == '\n' || c == '\r' ||
              c == '\x0b' || c == '\x0c') l).filter (fun w => !w.isEmpty)

/-- The character class kept by werkzeug's
`_filename_ascii_strip_re = re.compile(r"[^A-Za-z0-9_.-]")`. -/
def keepFilenameChar (c : Char) : Bool :=
  c.isAlpha || c.isDigit || c == '_' || c == '.' || c == '-'

/-- Werkzeug's `secure_filename`, as called by `job_complete` and
`predict`, modelled for the POSIX configuration the service runs under
(`os.sep = "/"`, `os.path.altsep = None`, `os.name != "nt"`):
drop non-ASCII code points (`encode("ascii", "ignore")`; the preceding
NFKD normalization is the identity on ASCII and is not modelled further),
replace `/` by a space, join the whitespace-split pieces with `_`, delete
every character outside `[A-Za-z0-9_.-]`, and strip leading and trailing
`.` and `_`. -/
def secure_filename (filename : String) : String :=
  let ascii := filename.toList.filter (fun c => c.toNat < 128)
  let replaced := ascii.map (fun c => if c = '/' then ' ' else c)
  let joined := List.intercalate ['_'] (pyStrSplit replaced)
  let kept := joined.filter keepFilenameChar
  let stripEdge := fun (l : List Char) => l.dropWhile (fun c => c == '.' || c == '_')
  String.mk ((stripEdge ((stripEdge kept).reverse)).reverse)

/-- A request to the `/job/<job_id>/complete` route: either a multipart
upload with a `model` file field (carrying the client-supplied filename),
or a JSON body whose `model_url` key may be absent. -/
inductive CompleteReq
  | file (orig_filename : String)
  | jsonBody (model_url : Option String)
  deriving DecidableEq, Repr

/-- The in-place writes performed by the `model_url` branch of
`job_complete` under `JOBS_LOCK`: status `"done"`, `finished_at`, and
`result = {"file": None, "url": model_url}`. -/
def markUrlDone (model_url : String) (t : Nat) (j : Job) : Job :=
  { j with status := "done", finished_at := some t,
           result := some ⟨none, model_url⟩ }

/-- Response of the `/job/<job_id>/complete` route. -/
inductive CompleteResp
  | notFound
  | okFile (file : String)
  | okUrl (url : String)
  | noModel
  deriving DecidableEq, Repr

/-- The `/job/<job_id>/complete` route of `app.py`.  Unknown id: 404.
File upload: store the artifact as `f"{job_id}__{secure_filename(f.filename)}"`,
mark the job done via `update_job_done`, answer
`{"status": "ok", "file": "/result/" + job_id}`.  JSON body with a truthy
`model_url`: mark the job done in place with
`result = {"file": None, "url": model_url}` and answer
`{"status": "ok", "url": model_url}`.  Otherwise 400. -/
def job_complete (s : State) (job_id : String) (req : CompleteReq) (t : Nat) :
    State × CompleteResp :=
  match getJob s job_id with
  | none => (s, .notFound)
  | some _ =>
    match req with
    | .file orig_filename =>
      let out_fname := job_id ++ "__" ++ secure_filename orig_filename
      let r := update_job_done s job_id out_fname t
      (r.1, .okFile ("/result/" ++ job_id))
    | .jsonBody model_url =>
      match model_url with
      | some u =>
        if u = "" then (s, .noModel)
        else
          (mutateJob s job_id (markUrlDone u t), .okUrl u)
      | none => (s, .noModel)

/-- Response of the `/result/<job_id>` route.  `typeError` is the Python
`TypeError` raised when `job["result"]` is `None` while the status is
`"done"`; it is unreachable from the routes (see `C8`). -/
inductive ResultResp
  | notFound
  | notReady
  | fileResp (file : String)
  | urlResp (url : String)
  | typeError
  deriving DecidableEq, Repr

/-- The `/result/<job_id>` route of `app.py`: unknown id → 404
`{"error": "not found"}`; status not `"done"` → 404
`{"error": "result not ready"}`; `if job["result"]["file"]:` → serve the
stored artifact file; else → `{"url": job["result"]["url"]}`. -/
def get_result (s : State) (job_id : String) : ResultResp :=
  match getJob s job_id with
  | none => .notFound
  | some job =>
    if job.status ≠ "done" then .notReady
    else
      match job.result with
      | none => .typeError
      | some r =>
        match r.file with
        | some f => if f = "" then .urlResp r.url else .fileResp f
        | none => .urlResp r.url

/-- An object placed by the prompt heuristic: `{"name": ..., "position":
[x, y, z], "rotation": [rx, ry, rz]}`.  Coordinates are rationals; the
Python floats drawn by `random.uniform(-1, 1)` come from an oracle. -/
structure SceneObject where
  name : String
  position : ℚ × ℚ × ℚ
  rotation : ℚ × ℚ × ℚ
  deriving DecidableEq, Repr

/-- The `object_library` dict of `generate_objects_from_prompt`, in
insertion (iteration) order. -/
def object_library : List (String × String) :=
  [("plant", "pottedplant"), ("tree", "pottedplant"), ("vase", "vase"),
   ("chair", "chair"), ("table", "table"), ("lamp", "lamp"),
   ("sofa", "sofa"), ("carpet", "carpet"), ("stage", "stage"),
   ("wedding", "wedding")]

/-- Python `str.lower()` as used on the prompt: lowercase every
character (ASCII case mapping, which covers every library keyword). -/
def pyLower (s : String) : String :=
  String.mk (s.toList.map Char.toLower)

/-- Helper for `occursIn`: does `needle` occur as a contiguous sublist
of the second argument? -/
def containsSub (needle : List Char) : List Char → Bool
  | [] => needle.isEmpty
  | c :: rest => needle.isPrefixOf (c :: rest) || containsSub needle rest

/-- Python `keyword in prompt`: substring containment. -/
def occursIn (keyword prompt : String) : Bool :=
  containsSub keyword.toList prompt.toList

/-- The library loop of `generate_objects_from_prompt`: for each
`(keyword, obj_name)` whose keyword occurs in the (already lowercased)
prompt, append an object at `[uniform(-1,1), 0, uniform(-1,1)]` with
rotation `[0, 0, 0]`.  `n` indexes the next unused oracle draw; each
placed object consumes two draws. -/
def libraryScan (rand : Nat → ℚ) : Nat → List (String × String) → String →
    List SceneObject
  | _, [], _ => []
  | n, (keyword, obj_name) :: rest, p =>
    if occursIn keyword p then
      ⟨obj_name, (rand n, 0, rand (n + 1)), (0, 0, 0)⟩ ::
        libraryScan rand (n + 2) rest p
    else
      libraryScan rand n rest p

/-- `generate_objects_from_prompt(prompt)` of `app.py`: lowercase the
prompt, place one object per library keyword occurring in it, and fall
back to a single `"cube"` at the origin when nothing matched. -/
def generate_objects_from_prompt (rand : Nat → ℚ) (prompt : String) :
    List SceneObject :=
  let p := pyLower prompt
  let objects := libraryScan rand 0 object_library p
  if objects.isEmpty then [⟨"cube", (0, 0, 0), (0, 0, 0)⟩] else objects

/-- A lifecycle operation on the job store: the five mutating entry
points of the queue subsystem, with external inputs (uuid, timestamps,
request payloads) as explicit data. -/
inductive Op
  | create (job_id prompt : String) (meta : List (String × String)) (t : Nat)
  | claim (worker_id : String) (t : Nat)
  | completeFile (job_id orig_filename : String) (t : Nat)
  | completeUrl (job_id : String) (model_url : Option String) (t : Nat)
  | fail (job_id error_msg : String) (t : Nat)
  deriving DecidableEq, Repr

/-- The store transition of one lifecycle operation. -/
def applyOp (s : State) : Op → State
  | .create job_id prompt meta t => (new_job s job_id prompt meta t).1
  | .claim worker_id t => (next_queued_job_and_claim s worker_id t).1
  | .completeFile job_id orig t => (job_complete s job_id (.file orig) t).1
  | .completeUrl job_id murl t => (job_complete s job_id (.jsonBody murl) t).1
  | .fail job_id msg t => (update_job_failed s job_id msg t).1

/-- Run a sequence of lifecycle operations from a store. -/
def run (s : State) (ops : List Op) : State := ops.foldl applyOp s

/-- Well-formedness of one operation against the current store: the only
external assumption is that `uuid.uuid4().hex` never collides with an id
already in the store. -/
def opWF (s : State) : Op → Prop
  | .create job_id _ _ _ => getJob s job_id = none
  | _ => True

/-- Well-formedness of a whole trace: every `create` uses a fresh id at
the moment it runs. -/
def TraceWF : State → List Op → Prop
  | _, [] => True
  | s, op :: ops => opWF s op ∧ TraceWF (applyOp s op) ops

/-- One claim step together with the id it claimed, when any. -/
def applyOpClaimed (s : State) : Op → State × List String
  | .claim worker_id t =>
    let r := next_queued_job_and_claim s worker_id t
    (r.1, (r.2.map Job.id).toList)
  | op => (applyOp s op, [])

/-- Run a trace accumulating the ids of the jobs that were claimed along
the way. -/
def runClaimed : State × List String → List Op → State × List String
  | p, [] => p
  | (s, claimed), op :: ops =>
    let r := applyOpClaimed s op
    runClaimed (r.1, claimed ++ r.2) ops

/-- Per-record invariant of the store (proved to hold in every reachable
store): a legal status; a queued record has none of the later-life fields
set; a done record has a result and a failed record an error;
`worker_id` and `started_at` are set together. -/
def JobWF (j : Job) : Prop :=
  (j.status = "queued" ∨ j.status = "running" ∨ j.status = "done" ∨
    j.status = "failed") ∧
  (j.status = "queued" → j.started_at = none ∧ j.worker_id = none ∧
    j.finished_at = none ∧ j.result = none ∧ j.error = none) ∧
  (j.status = "done" → j.result.isSome) ∧
  (j.status = "failed" → j.error.isSome) ∧
  (j.worker_id.isSome ↔ j.started_at.isSome)

/-- Store invariant: distinct ids and per-record well-formedness. -/
def StateWF (s : State) : Prop :=
  (s.map Job.id).Nodup ∧ ∀ j ∈ s, JobWF j

/-- A store is reachable when some well-formed trace of lifecycle
operations produces it from the empty store the process starts with. -/
def Reachable (s : State) : Prop :=
  ∃ ops : List Op, TraceWF [] ops ∧ run [] ops = s

/-- The correspondence between the store and the list of ids that the
claim operation has transitioned to `"running"` so far: `worker_id` is
set on exactly the claimed records, and every claimed id is still in the
store. -/
def ClaimedInv (s : State) (claimed : List String) : Prop :=
  (∀ j ∈ s, (j.worker_id.isSome ↔ j.id ∈ claimed)) ∧
  (∀ c ∈ claimed, ∃ j ∈ s, j.id = c)

instance decOpWF (s : State) (op : Op) : Decidable (opWF s op) := by
  cases op <;> simp only [opWF] <;> infer_instance

instance decTraceWF : (s : State) → (ops : List Op) → Decidable (TraceWF s ops)
  | _, [] => .isTrue trivial
  | s, op :: ops =>
    have : Decidable (TraceWF (applyOp s op) ops) := decTraceWF (applyOp s op) ops
    inferInstanceAs (Decidable (opWF s op ∧ TraceWF (applyOp s op) ops))

instance decJobWF (j : Job) : Decidable (JobWF j) := by
  unfold JobWF; infer_instance

instance decStateWF (s : State) : Decidable (StateWF s) := by
  unfold StateWF; infer_instance

theorem getJob_eq_none (s : State) (job_id : String) :
    getJob s job_id = none ↔ ∀ j ∈ s, j.id ≠ job_id := by
  simp [getJob, List.find?_eq_none]

theorem getJob_some_id {s : State} {job_id : String} {j : Job}
    (h : getJob s job_id = some j) : j.id = job_id := by
  have := List.find?_some h
  simpa using this

theorem getJob_mem {s : State} {job_id : String} {j : Job}
    (h : getJob s job_id = some j) : j ∈ s :=
  List.mem_of_find?_eq_some h

theorem putJob_fresh (s : State) (j : Job) (h : ∀ k ∈ s, k.id ≠ j.id) :
    putJob s j = s ++ [j] := by
  have : s.any (fun k => k.id = j.id) = false := by
    simp only [List.any_eq_false, decide_eq_true_eq]
    exact h
  simp [putJob, this]

theorem mutateJob_ids (s : State) (job_id : String) (f : Job → Job)
    (hf : ∀ j, (f j).id = j.id) :
    (mutateJob s job_id f).map Job.id = s.map Job.id := by
  unfold mutateJob
  rw [List.map_map]
  congr 1
  funext j
  by_cases hj : j.id = job_id <;> simp [hj, hf]

theorem mem_mutateJob {s : State} {job_id : String} {f : Job → Job} {j' : Job}
    (h : j' ∈ mutateJob s job_id f) :
    ∃ j ∈ s, j' = if j.id = job_id then f j else j := by
  obtain ⟨j, hj, hj'⟩ := List.mem_map.mp h
  exact ⟨j, hj, hj'.symm⟩

theorem mutateJob_mem_of_mem {s : State} {job_id : String} {f : Job → Job}
    {j : Job} (h : j ∈ s) :
    (if j.id = job_id then f j else j) ∈ mutateJob s job_id f :=
  List.mem_map_of_mem _ h

theorem getJob_mutateJob (s : State) (job_id id2 : String) (f : Job → Job)
    (hf : ∀ j, (f j).id = j.id) :
    getJob (mutateJob s job_id f) id2 =
      (getJob s id2).map (fun j => if j.id = job_id then f j else j) := by
  unfold getJob mutateJob
  rw [List.find?_map]
  have hp : ((fun j : Job => decide (j.id = id2)) ∘
      fun k : Job => if k.id = job_id then f k else k) =
      fun j : Job => decide (j.id = id2) := by
    funext j
    by_cases hj : j.id = job_id <;> simp [Function.comp, hj, hf]
  rw [hp]

theorem claimedJob_id (worker_id : String) (t : Nat) (j : Job) :
    (claimedJob worker_id t j).id = j.id := rfl

theorem claimScan_ids (worker_id : String) (t : Nat) (l : List Job) :
    ((claimScan worker_id t l).1).map Job.id = l.map Job.id := by
  induction l with
  | nil => rfl
  | cons j rest ih =>
    by_cases hj : j.status = "queued" <;>
      simp [claimScan, hj, claimedJob_id, ih]

theorem claimScan_none (worker_id : String) (t : Nat) (l : List Job)
    (h : ∀ j ∈ l, j.status ≠ "queued") :
    claimScan worker_id t l = (l, none) := by
  induction l with
  | nil => rfl
  | cons j rest ih =>
    have hj : j.status ≠ "queued" := h j (by simp)
    have ihr := ih (fun k hk => h k (by simp [hk]))
    simp [claimScan, hj, ihr]

theorem claimScan_first (worker_id : String) (t : Nat) (pre : List Job)
    (j : Job) (post : List Job)
    (hpre : ∀ k ∈ pre, k.status ≠ "queued") (hj : j.status = "queued") :
    claimScan worker_id t (pre ++ j :: post) =
      (pre ++ claimedJob worker_id t j :: post,
       some (claimedJob worker_id t j)) := by
  induction pre with
  | nil => simp [claimScan, hj]
  | cons k rest ih =>
    have hk : k.status ≠ "queued" := hpre k (by simp)
    have ihr := ih (fun m hm => hpre m (by simp [hm]))
    simp [claimScan, hk, ihr]

theorem claimScan_eq_some (worker_id : String) (t : Nat) (l : List Job)
    (j' : Job) (h : (claimScan worker_id t l).2 = some j') :
    ∃ pre j post, l = pre ++ j :: post ∧
      (∀ k ∈ pre, k.status ≠ "queued") ∧ j.status = "queued" ∧
      j' = claimedJob worker_id t j ∧
      (claimScan worker_id t l).1 = pre ++ claimedJob worker_id t j :: post := by
  induction l with
  | nil => simp [claimScan] at h
  | cons k rest ih =>
    by_cases hk : k.status = "queued"
    · have hj' : j' = claimedJob worker_id t k := by
        have := h
        simp [claimScan, hk] at this
        exact this.symm
      exact ⟨[], k, rest, rfl, by simp, hk, hj', by simp [claimScan, hk]⟩
    · have h2 : (claimScan worker_id t rest).2 = some j' := by
        simpa [claimScan, hk] using h
      obtain ⟨pre, j, post, hl, hpre, hjq, hj', hfst⟩ := ih h2
      refine ⟨k :: pre, j, post, by simp [hl], ?_, hjq, hj', ?_⟩
      · intro m hm
        rcases List.mem_cons.mp hm with rfl | hm
        · exact hk
        · exact hpre m hm
      · simp [claimScan, hk, hfst]

theorem claimScan_mem_of_not_queued (worker_id : String) (t : Nat)
    (l : List Job) (j : Job) (hj : j ∈ l) (hstat : j.status ≠ "queued") :
    j ∈ (claimScan worker_id t l).1 := by
  induction l with
  | nil => simp at hj
  | cons k rest ih =>
    rcases List.mem_cons.mp hj with rfl | hm
    · have hk : j.status ≠ "queued" := hstat
      simp [claimScan, hk]
    · by_cases hk : k.status = "queued"
      · simp [claimScan, hk, hm]
      · simp [claimScan, hk]
        exact Or.inr (ih hm)

theorem mem_claimScan (worker_id : String) (t : Nat) (l : List Job)
    (j' : Job) (h : j' ∈ (claimScan worker_id t l).1) :
    j' ∈ l ∨ ∃ j ∈ l, j.status = "queued" ∧ j' = claimedJob worker_id t j := by
  induction l with
  | nil => simp [claimScan] at h
  | cons k rest ih =>
    by_cases hk : k.status = "queued"
    · simp [claimScan, hk] at h
      rcases h with rfl | hm
      · exact Or.inr ⟨k, by simp, hk, rfl⟩
      · exact Or.inl (by simp [hm])
    · simp [claimScan, hk] at h
      rcases h with rfl | hm
      · exact Or.inl (by simp)
      · rcases ih hm with hj | ⟨j, hjm, hjq, hje⟩
        · exact Or.inl (by simp [hj])
        · exact Or.inr ⟨j, by simp [hjm], hjq, hje⟩

theorem jobWF_claimedJob (worker_id : String) (t : Nat) (j : Job)
    (hj : JobWF j) : JobWF (claimedJob worker_id t j) := by
  obtain ⟨-, -, -, -, -⟩ := hj
  refine ⟨Or.inr (Or.inl rfl), ?_, ?_, ?_, ?_⟩ <;> simp [claimedJob]

theorem jobWF_markDone (result_filename job_id : String) (t : Nat) (j : Job)
    (hj : JobWF j) : JobWF (markDone result_filename job_id t j) := by
  obtain ⟨-, -, -, -, hws⟩ := hj
  refine ⟨Or.inr (Or.inr (Or.inl rfl)), ?_, ?_, ?_, ?_⟩ <;>
    simp [markDone, hws]

theorem jobWF_markFailed (error_msg : String) (t : Nat) (j : Job)
    (hj : JobWF j) : JobWF (markFailed error_msg t j) := by
  obtain ⟨-, -, -, -, hws⟩ := hj
  refine ⟨Or.inr (Or.inr (Or.inr rfl)), ?_, ?_, ?_, ?_⟩ <;>
    simp [markFailed, hws]

theorem jobWF_markUrlDone (model_url : String) (t : Nat) (j : Job)
    (hj : JobWF j) : JobWF (markUrlDone model_url t j) := by
  obtain ⟨-, -, -, -, hws⟩ := hj
  refine ⟨Or.inr (Or.inr (Or.inl rfl)), ?_, ?_, ?_, ?_⟩ <;>
    simp [markUrlDone, hws]

theorem stateWF_mutate (s : State) (job_id : String) (f : Job → Job)
    (hs : StateWF s) (hid : ∀ j, (f j).id = j.id)
    (hf : ∀ j, JobWF j → JobWF (f j)) : StateWF (mutateJob s job_id f) := by
  constructor
  · rw [mutateJob_ids s job_id f hid]
    exact hs.1
  · intro j' hj'
    obtain ⟨j, hjm, hje⟩ := mem_mutateJob hj'
    by_cases hj : j.id = job_id
    · rw [hje, if_pos hj]
      exact hf j (hs.2 j hjm)
    · rw [hje, if_neg hj]
      exact hs.2 j hjm

theorem stateWF_applyOp (s : State) (op : Op) (hs : StateWF s)
    (hw : opWF s op) : StateWF (applyOp s op) := by
  cases op with
  | create job_id prompt meta t =>
    have hfresh : ∀ k ∈ s, k.id ≠ job_id := (getJob_eq_none s job_id).mp hw
    have hput := putJob_fresh s
      ⟨job_id, prompt, meta, "queued", t, none, none, none, none, none⟩
      (by intro k hk; exact hfresh k hk)
    simp only [applyOp, new_job, hput]
    constructor
    · rw [List.map_append]
      refine List.Nodup.append hs.1 (by simp) ?_
      intro a ha hb
      simp at hb
      obtain ⟨k, hk, hka⟩ := List.mem_map.mp ha
      exact hfresh k hk (hka.trans hb)
    · intro j hj
      rcases List.mem_append.mp hj with hj | hj
      · exact hs.2 j hj
      · simp at hj
        subst hj
        exact ⟨Or.inl rfl, by simp, by simp, by simp, by simp⟩
  | claim worker_id t =>
    constructor
    · show ((claimScan worker_id t s).1.map Job.id).Nodup
      rw [claimScan_ids]
      exact hs.1
    · intro j' hj'
      rcases mem_claimScan worker_id t s j' hj' with hj | ⟨j, hjm, -, hje⟩
      · exact hs.2 j' hj
      · rw [hje]
        exact jobWF_claimedJob worker_id t j (hs.2 j hjm)
  | completeFile job_id orig t =>
    cases hg : getJob s job_id with
    | none => simpa [applyOp, job_complete, hg] using hs
    | some j =>
      simp only [applyOp, job_complete, hg, update_job_done]
      exact stateWF_mutate s job_id _ hs (fun j => rfl)
        (jobWF_markDone _ job_id t)
  | completeUrl job_id murl t =>
    cases hg : getJob s job_id with
    | none => simpa [applyOp, job_complete, hg] using hs
    | some j =>
      cases murl with
      | none => simpa [applyOp, job_complete, hg] using hs
      | some u =>
        by_cases hu : u = ""
        · simpa [applyOp, job_complete, hg, hu] using hs
        · simp only [applyOp, job_complete, hg, hu, if_neg hu]
          exact stateWF_mutate s job_id _ hs (fun j => rfl)
            (jobWF_markUrlDone u t)
  | fail job_id msg t =>
    cases hg : getJob s job_id with
    | none => simpa [applyOp, update_job_failed, hg] using hs
    | some j =>
      simp only [applyOp, update_job_failed, hg]
      exact stateWF_mutate s job_id _ hs (fun j => rfl)
        (jobWF_markFailed msg t)

theorem stateWF_nil : StateWF [] := ⟨List.nodup_nil, by simp⟩

theorem stateWF_run (s : State) (ops : List Op) (hs : StateWF s)
    (h : TraceWF s ops) : StateWF (run s ops) := by
  induction ops generalizing s with
  | nil => exact hs
  | cons op ops ih =>
    exact ih (applyOp s op) (stateWF_applyOp s op hs h.1) h.2

theorem reachable_stateWF (s : State) (h : Reachable s) : StateWF s := by
  obtain ⟨ops, hwf, rfl⟩ := h
  exact stateWF_run [] ops stateWF_nil hwf

theorem applyOpClaimed_fst (s : State) (op : Op) :
    (applyOpClaimed s op).1 = applyOp s op := by
  cases op <;> rfl

theorem runClaimed_fst (ops : List Op) (s : State) (claimed : List String) :
    (runClaimed (s, claimed) ops).1 = run s ops := by
  induction ops generalizing s claimed with
  | nil => rfl
  | cons op ops ih =>
    show (runClaimed ((applyOpClaimed s op).1, _) ops).1 = _
    rw [ih, applyOpClaimed_fst]
    rfl

theorem runClaimed_acc (ops : List Op) (s : State) (claimed : List String) :
    runClaimed (s, claimed) ops =
      ((runClaimed (s, []) ops).1, claimed ++ (runClaimed (s, []) ops).2) := by
  induction ops generalizing s claimed with
  | nil => simp [runClaimed]
  | cons op ops ih =>
    show runClaimed ((applyOpClaimed s op).1, claimed ++ _) ops = _
    rw [ih ((applyOpClaimed s op).1) (claimed ++ (applyOpClaimed s op).2)]
    conv_rhs =>
      rw [show runClaimed (s, []) (op :: ops) =
        runClaimed ((applyOpClaimed s op).1, [] ++ (applyOpClaimed s op).2) ops
        from rfl]
    rw [ih ((applyOpClaimed s op).1) ([] ++ (applyOpClaimed s op).2)]
    simp

theorem runClaimed_append (ops ops' : List Op) (p : State × List String) :
    runClaimed p (ops ++ ops') = runClaimed (runClaimed p ops) ops' := by
  induction ops generalizing p with
  | nil =>
    obtain ⟨s, c⟩ := p
    rfl
  | cons op ops ih =>
    obtain ⟨s, c⟩ := p
    show runClaimed ((applyOpClaimed s op).1, _) (ops ++ ops') = _
    rw [ih]
    rfl

theorem claimScan_none_fst (worker_id : String) (t : Nat) (l : List Job)
    (h : (claimScan worker_id t l).2 = none) :
    (claimScan worker_id t l).1 = l := by
  induction l with
  | nil => rfl
  | cons k rest ih =>
    by_cases hk : k.status = "queued"
    · simp [claimScan, hk] at h
    · have h2 : (claimScan worker_id t rest).2 = none := by
        simpa [claimScan, hk] using h
      simp [claimScan, hk, ih h2]

theorem claimedInv_mutate (s : State) (claimed : List String)
    (job_id : String) (f : Job → Job) (hc : ClaimedInv s claimed)
    (hid : ∀ j, (f j).id = j.id)
    (hwk : ∀ j, (f j).worker_id = j.worker_id) :
    ClaimedInv (mutateJob s job_id f) claimed := by
  constructor
  · intro j' hj'
    obtain ⟨j, hjm, hje⟩ := mem_mutateJob hj'
    by_cases hj : j.id = job_id
    · rw [hje, if_pos hj, hid, hwk]
      exact hc.1 j hjm
    · rw [hje, if_neg hj]
      exact hc.1 j hjm
  · intro c hcm
    obtain ⟨j, hjm, hje⟩ := hc.2 c hcm
    refine ⟨if j.id = job_id then f j else j, mutateJob_mem_of_mem hjm, ?_⟩
    by_cases hj : j.id = job_id
    · rw [if_pos hj, hid]
      exact hje
    · rw [if_neg hj]
      exact hje

theorem claimedInv_step (s : State) (claimed : List String) (op : Op)
    (hs : StateWF s) (hc : ClaimedInv s claimed) (hw : opWF s op) :
    ClaimedInv (applyOpClaimed s op).1
      (claimed ++ (applyOpClaimed s op).2) := by
  cases op with
  | create job_id prompt meta t =>
    have hfresh : ∀ k ∈ s, k.id ≠ job_id := (getJob_eq_none s job_id).mp hw
    have hput := putJob_fresh s
      ⟨job_id, prompt, meta, "queued", t, none, none, none, none, none⟩
      (by intro k hk; exact hfresh k hk)
    have hnc : job_id ∉ claimed := by
      intro hmem
      obtain ⟨j, hjm, hje⟩ := hc.2 job_id hmem
      exact hfresh j hjm hje
    constructor
    · intro j hj
      simp only [applyOpClaimed, applyOp, new_job, hput, List.append_nil] at hj ⊢
      rcases List.mem_append.mp hj with hj | hj
      · exact hc.1 j hj
      · simp at hj
        subst hj
        simp [hnc]
    · intro c hcm
      simp only [applyOpClaimed, List.append_nil] at hcm
      obtain ⟨j, hjm, hje⟩ := hc.2 c hcm
      refine ⟨j, ?_, hje⟩
      simp [applyOpClaimed, applyOp, new_job, hput, hjm]
  | claim worker_id t =>
    cases hr : (claimScan worker_id t s).2 with
    | none =>
      have hfst := claimScan_none_fst worker_id t s hr
      have hstep : applyOpClaimed s (Op.claim worker_id t) = (s, []) := by
        simp [applyOpClaimed, next_queued_job_and_claim, hr, hfst]
      rw [hstep]
      simpa using hc
    | some j' =>
      obtain ⟨pre, j, post, hl, hpre, hjq, hje, hfst⟩ :=
        claimScan_eq_some worker_id t s j' hr
      have hstep : applyOpClaimed s (Op.claim worker_id t) =
          (pre ++ claimedJob worker_id t j :: post, [j.id]) := by
        simp [applyOpClaimed, next_queued_job_and_claim, hr, hfst, hje,
          claimedJob_id]
      have hn : ((pre.map Job.id) ++ j.id :: (post.map Job.id)).Nodup := by
        have := hs.1
        rw [hl] at this
        simpa using this
      have hpre_id : ∀ k ∈ pre, k.id ≠ j.id := by
        intro k hk he
        have hd := (List.nodup_append.mp hn).2.2
        exact hd (List.mem_map_of_mem Job.id hk) (by simp [he])
      have hpost_id : ∀ k ∈ post, k.id ≠ j.id := by
        intro k hk he
        have h2 := (List.nodup_append.mp hn).2.1
        exact (List.nodup_cons.mp h2).1 (List.mem_map.mpr ⟨k, hk, he⟩)
      rw [hstep]
      constructor
      · intro k hk
        rcases List.mem_append.mp hk with hkp | hkc
        · have hks : k ∈ s := by
            rw [hl]; exact List.mem_append_left _ hkp
          have base := hc.1 k hks
          constructor
          · intro hwk
            exact List.mem_append_left _ (base.mp hwk)
          · intro hm
            rcases List.mem_append.mp hm with hm | hm
            · exact base.mpr hm
            · simp at hm
              exact absurd hm (hpre_id k hkp)
        · rcases List.mem_cons.mp hkc with rfl | hkpost
          · constructor
            · intro _
              refine List.mem_append_right _ ?_
              simp [claimedJob]
            · intro _
              simp [claimedJob]
          · have hks : k ∈ s := by
              rw [hl]
              exact List.mem_append_right _ (List.mem_cons_of_mem _ hkpost)
            have base := hc.1 k hks
            constructor
            · intro hwk
              exact List.mem_append_left _ (base.mp hwk)
            · intro hm
              rcases List.mem_append.mp hm with hm | hm
              · exact base.mpr hm
              · simp at hm
                exact absurd hm (hpost_id k hkpost)
      · intro c hcm
        rcases List.mem_append.mp hcm with hcm | hcm
        · obtain ⟨jk, hjkm, hjke⟩ := hc.2 c hcm
          rw [hl] at hjkm
          rcases List.mem_append.mp hjkm with hjk | hjk
          · exact ⟨jk, List.mem_append_left _ hjk, hjke⟩
          · rcases List.mem_cons.mp hjk with rfl | hjk
            · refine ⟨claimedJob worker_id t jk, ?_, hjke⟩
              exact List.mem_append_right _ (by simp)
            · exact ⟨jk,
                List.mem_append_right _ (List.mem_cons_of_mem _ hjk), hjke⟩
        · simp at hcm
          subst hcm
          refine ⟨claimedJob worker_id t j, ?_, rfl⟩
          exact List.mem_append_right _ (by simp)
  | completeFile job_id orig t =>
    cases hg : getJob s job_id with
    | none =>
      simpa [applyOpClaimed, applyOp, job_complete, hg] using hc
    | some j =>
      simp only [applyOpClaimed, applyOp, job_complete, hg, update_job_done,
        List.append_nil]
      exact claimedInv_mutate s claimed job_id _ hc
        (fun j => rfl) (fun j => rfl)
  | completeUrl job_id murl t =>
    cases hg : getJob s job_id with
    | none =>
      simpa [applyOpClaimed, applyOp, job_complete, hg] using hc
    | some j =>
      cases murl with
      | none =>
        simpa [applyOpClaimed, applyOp, job_complete, hg] using hc
      | some u =>
        by_cases hu : u = ""
        · simpa [applyOpClaimed, applyOp, job_complete, hg, hu] using hc
        · simp only [applyOpClaimed, applyOp, job_complete, hg, if_neg hu,
            List.append_nil]
          exact claimedInv_mutate s claimed job_id _ hc
            (fun j => rfl) (fun j => rfl)
  | fail job_id msg t =>
    cases hg : getJob s job_id with
    | none =>
      simpa [applyOpClaimed, applyOp, update_job_failed, hg] using hc
    | some j =>
      simp only [applyOpClaimed, applyOp, update_job_failed, hg,
        List.append_nil]
      exact claimedInv_mutate s claimed job_id _ hc
        (fun j => rfl) (fun j => rfl)

theorem claimedInv_runClaimed (ops : List Op) (s : State)
    (claimed : List String) (hs : StateWF s) (hc : ClaimedInv s claimed)
    (h : TraceWF s ops) :
    ClaimedInv (runClaimed (s, claimed) ops).1
      (runClaimed (s, claimed) ops).2 := by
  induction ops generalizing s claimed with
  | nil => exact hc
  | cons op ops ih =>
    show ClaimedInv (runClaimed ((applyOpClaimed s op).1, _) ops).1 _
    have hs' : StateWF (applyOpClaimed s op).1 := by
      rw [applyOpClaimed_fst]
      exact stateWF_applyOp s op hs h.1
    have hw' : TraceWF (applyOpClaimed s op).1 ops := by
      rw [applyOpClaimed_fst]
      exact h.2
    exact ih (applyOpClaimed s op).1 (claimed ++ (applyOpClaimed s op).2)
      hs' (claimedInv_step s claimed op hs hc h.1) hw'

/-- C4: `claim(worker_id)` transitions exactly the first queued record in
scan (insertion) order to `"running"`, setting `started_at` and
`worker_id` on it and returning it, while every other record is
untouched; with no queued record it returns `none` and leaves the store
unchanged. -/
theorem claim_transitions_first_queued (s : State) (worker_id : String)
    (t : Nat) :
    ((∀ j ∈ s, j.status ≠ "queued") →
      next_queued_job_and_claim s worker_id t = (s, none)) ∧
    (∀ pre j post, s = pre ++ j :: post →
      (∀ k ∈ pre, k.status ≠ "queued") → j.status = "queued" →
      next_queued_job_and_claim s worker_id t =
        (pre ++ claimedJob worker_id t j :: post,
         some (claimedJob worker_id t j)) ∧
      (claimedJob worker_id t j).status = "running" ∧
      (claimedJob worker_id t j).started_at = some t ∧
      (claimedJob worker_id t j).worker_id = some worker_id) := by
  constructor
  · intro h
    exact claimScan_none worker_id t s h
  · intro pre j post hl hpre hj
    subst hl
    exact ⟨claimScan_first worker_id t pre j post hpre hj, rfl, rfl, rfl⟩

theorem claim_transitions_first_queued_witness :
    next_queued_job_and_claim
        [⟨"j1", "p", [], "queued", 0, none, none, none, none, none⟩]
        "w1" 5 =
      ([⟨"j1", "p", [], "running", 0, some 5, none, none, some "w1", none⟩],
       some ⟨"j1", "p", [], "running", 0, some 5, none, none,
             some "w1", none⟩) := by
  have h := (claim_transitions_first_queued
      [⟨"j1", "p", [], "queued", 0, none, none, none, none, none⟩]
      "w1" 5).2 []
      ⟨"j1", "p", [], "queued", 0, none, none, none, none, none⟩ []
      rfl (by simp) rfl
  simpa [claimedJob] using h.1

/-- C5: `/generate` with a missing or empty prompt answers
`400 missing prompt` and adds no job; with a non-empty prompt and a fresh
generated id it appends exactly one record with status `"queued"`,
`created_at` set, and `started_at`, `finished_at`, `result`, `error`,
`worker_id` absent, answering `201` with the new id, and distinctness of
the stored ids is preserved. -/
theorem generate_creates_queued_job (s : State) (prompt : Option String)
    (meta : List (String × String)) (job_id : String) (t : Nat) :
    ((prompt = none ∨ prompt = some "") →
      generate s prompt meta job_id t =
        (s, GenerateResp.badRequest "missing prompt")) ∧
    (∀ p, prompt = some p → p ≠ "" → getJob s job_id = none →
      generate s prompt meta job_id t =
        (s ++ [⟨job_id, p, meta, "queued", t, none, none, none, none, none⟩],
         GenerateResp.created job_id) ∧
      ((s.map Job.id).Nodup →
        (((generate s prompt meta job_id t).1).map Job.id).Nodup)) := by
  constructor
  · rintro (rfl | rfl)
    · rfl
    · rfl
  · rintro p rfl hp hfresh
    have hids : ∀ k ∈ s, k.id ≠ job_id := (getJob_eq_none s job_id).mp hfresh
    have hput := putJob_fresh s
      ⟨job_id, p, meta, "queued", t, none, none, none, none, none⟩
      (by intro k hk; exact hids k hk)
    constructor
    · simp only [generate, if_neg hp, new_job, hput]
    · intro hnodup
      simp only [generate, if_neg hp, new_job, hput]
      rw [List.map_append]
      refine List.Nodup.append hnodup (by simp) ?_
      intro a ha hb
      simp at hb
      obtain ⟨k, hk, hka⟩ := List.mem_map.mp ha
      exact hids k hk (hka.trans hb)

theorem generate_creates_queued_job_witness :
    generate [] (some "sunset wedding stage") [] "j1" 7 =
      ([⟨"j1", "sunset wedding stage", [], "queued", 7, none, none, none,
         none, none⟩], GenerateResp.created "j1") := by
  have h := (generate_creates_queued_job [] (some "sunset wedding stage")
      [] "j1" 7).2 "sunset wedding stage" rfl (by decide) (by decide)
  simpa using h.1

theorem getJob_update (s : State) (job_id : String) (f : Job → Job)
    (j : Job) (hg : getJob s job_id = some j)
    (hid : ∀ k, (f k).id = k.id) :
    getJob (mutateJob s job_id f) job_id = some (f j) := by
  rw [getJob_mutateJob s job_id job_id f hid, hg]
  have := getJob_some_id hg
  simp [this]

/-- C6: completing an unknown id answers 404 and changes nothing;
`update_job_done` on a known id sets status `"done"`, `finished_at`, and
`result = {file: given reference, url: "/result/" + job_id}`, a derived
retrieval path containing the job id; the `model_url` branch of
`job_complete` stores `result = {file: none, url: given url}`. -/
theorem complete_sets_done_result (s : State) (job_id : String) (t : Nat) :
    (∀ req, getJob s job_id = none →
      job_complete s job_id req t = (s, CompleteResp.notFound)) ∧
    (∀ fname j, getJob s job_id = some j →
      update_job_done s job_id fname t =
        (mutateJob s job_id (markDone fname job_id t),
         some (markDone fname job_id t j)) ∧
      (markDone fname job_id t j).status = "done" ∧
      (markDone fname job_id t j).finished_at = some t ∧
      (markDone fname job_id t j).result =
        some ⟨some fname, "/result/" ++ job_id⟩ ∧
      List.IsInfix job_id.toList ("/result/" ++ job_id).toList) ∧
    (∀ u j, getJob s job_id = some j → u ≠ "" →
      job_complete s job_id (CompleteReq.jsonBody (some u)) t =
        (mutateJob s job_id (markUrlDone u t), CompleteResp.okUrl u) ∧
      (markUrlDone u t j).result = some ⟨none, u⟩ ∧
      (markUrlDone u t j).status = "done" ∧
      (markUrlDone u t j).finished_at = some t) := by
  refine ⟨?_, ?_, ?_⟩
  · intro req hg
    simp [job_complete, hg]
  · intro fname j hg
    refine ⟨?_, rfl, rfl, rfl, ?_⟩
    · simp only [update_job_done, hg]
      rw [getJob_update s job_id (markDone fname job_id t) j hg
        (fun k => rfl)]
    · exact ⟨"/result/".toList, [], by simp⟩
  · intro u j hg hu
    exact ⟨by simp [job_complete, hg, hu], rfl, rfl, rfl⟩

theorem complete_sets_done_result_witness :
    update_job_done
        [⟨"j1", "p", [], "running", 0, some 1, none, none, some "w1", none⟩]
        "j1" "scene.glb" 2 =
      ([⟨"j1", "p", [], "done", 0, some 1, some 2,
         some ⟨some "scene.glb", "/result/j1"⟩, some "w1", none⟩],
       some ⟨"j1", "p", [], "done", 0, some 1, some 2,
         some ⟨some "scene.glb", "/result/j1"⟩, some "w1", none⟩) := by
  have h := (complete_sets_done_result
      [⟨"j1", "p", [], "running", 0, some 1, none, none, some "w1", none⟩]
      "j1" 2).2.1 "scene.glb"
      ⟨"j1", "p", [], "running", 0, some 1, none, none, some "w1", none⟩
      (by decide)
  have h1 := h.1
  simpa [mutateJob, markDone] using h1

/-- C7 as stated is false: the stored artifact reference is
`{job_id}__{secure_filename(original_filename)}`, and `secure_filename`
is not the identity on every upload filename — for the upload filename
`"a b.glb"` the code stores `"j1__a_b.glb"`, not `"j1__a b.glb"`. -/
theorem artifact_key_not_original_filename :
    (getJob (job_complete (run [] [Op.create "j1" "p" [] 0]) "j1"
        (CompleteReq.file "a b.glb") 1).1 "j1").map
        (fun j => j.result.map JobResult.file) =
      some (some (some "j1__a_b.glb")) ∧
    ("j1__a_b.glb" : String) ≠ "j1" ++ "__" ++ "a b.glb" := by
  constructor
  · rfl
  · decide

/-- C7 (amended): for every worker completion uploading an artifact
file, the stored artifact reference is
`{job_id}__{sanitized_filename}`, where `sanitized_filename` is
werkzeug's `secure_filename` of the upload's filename (equal to the
original exactly when the original is already in sanitized form). -/
theorem artifact_key_uses_sanitized_filename (s : State)
    (job_id orig_filename : String) (t : Nat) (j : Job)
    (h : getJob s job_id = some j) :
    ∃ j', getJob (job_complete s job_id
        (CompleteReq.file orig_filename) t).1 job_id = some j' ∧
      j'.result = some ⟨some (job_id ++ "__" ++ secure_filename
        orig_filename), "/result/" ++ job_id⟩ := by
  refine ⟨markDone (job_id ++ "__" ++ secure_filename orig_filename)
    job_id t j, ?_, rfl⟩
  simp only [job_complete, h, update_job_done]
  exact getJob_update s job_id _ j h (fun k => rfl)

theorem artifact_key_uses_sanitized_filename_witness :
    ∃ j', getJob (job_complete
        [⟨"j1", "p", [], "running", 0, some 1, none, none, some "w1",
          none⟩] "j1" (CompleteReq.file "scene.glb") 2).1 "j1" = some j' ∧
      j'.result = some ⟨some ("j1" ++ "__" ++ secure_filename "scene.glb"),
        "/result/" ++ "j1"⟩ :=
  artifact_key_uses_sanitized_filename
    [⟨"j1", "p", [], "running", 0, some 1, none, none, some "w1", none⟩]
    "j1" "scene.glb" 2
    ⟨"j1", "p", [], "running", 0, some 1, none, none, some "w1", none⟩
    (by decide)

/-- C8: on a reachable store, `/result/<job_id>` answers not-found for an
unknown id, "result not ready" for a job that exists but is not `"done"`
(never a result payload), and exactly the stored artifact reference or
URL for a `"done"` job; the not-found and not-ready signals are distinct
responses. -/
theorem get_result_only_when_done (s : State) (h : Reachable s)
    (job_id : String) :
    (getJob s job_id = none → get_result s job_id = ResultResp.notFound) ∧
    (∀ j, getJob s job_id = some j → j.status ≠ "done" →
      get_result s job_id = ResultResp.notReady) ∧
    (∀ j, getJob s job_id = some j → j.status = "done" →
      ∃ r, j.result = some r ∧
        ((∃ f, r.file = some f ∧ f ≠ "" ∧
            get_result s job_id = ResultResp.fileResp f) ∨
          get_result s job_id = ResultResp.urlResp r.url)) ∧
    ResultResp.notFound ≠ ResultResp.notReady := by
  refine ⟨?_, ?_, ?_, by simp⟩
  · intro hg
    simp [get_result, hg]
  · intro j hg hs
    simp [get_result, hg, hs]
  · intro j hg hdone
    have hwf := (reachable_stateWF s h).2 j (getJob_mem hg)
    obtain ⟨r, hr⟩ := Option.isSome_iff_exists.mp (hwf.2.2.1 hdone)
    refine ⟨r, hr, ?_⟩
    cases hf : r.file with
    | none =>
      right
      simp [get_result, hg, hdone, hr, hf]
    | some f =>
      by_cases hfe : f = ""
      · right
        simp [get_result, hg, hdone, hr, hf, hfe]
      · left
        exact ⟨f, rfl, hfe, by simp [get_result, hg, hdone, hr, hf, hfe]⟩

theorem get_result_only_when_done_witness :
    get_result (run [] [Op.create "j1" "p" [] 0, Op.claim "w1" 1,
        Op.completeUrl "j1" (some "http://m") 2]) "zzz" =
      ResultResp.notFound :=
  (get_result_only_when_done
    (run [] [Op.create "j1" "p" [] 0, Op.claim "w1" 1,
      Op.completeUrl "j1" (some "http://m") 2])
    ⟨[Op.create "j1" "p" [] 0, Op.claim "w1" 1,
      Op.completeUrl "j1" (some "http://m") 2], by decide, rfl⟩
    "zzz").1 (by decide)

theorem nodup_mid_id (pre : List Job) (j : Job) (post : List Job)
    (hn : (((pre ++ j :: post).map Job.id)).Nodup) :
    ∀ k, k ∈ pre ∨ k ∈ post → k.id ≠ j.id := by
  have hn' : ((pre.map Job.id) ++ j.id :: (post.map Job.id)).Nodup := by
    simpa using hn
  intro k hk he
  rcases hk with hk | hk
  · exact (List.nodup_append.mp hn').2.2
      (List.mem_map_of_mem Job.id hk) (by simp [he])
  · exact (List.nodup_cons.mp (List.nodup_append.mp hn').2.1).1
      (List.mem_map.mpr ⟨k, hk, he⟩)

/-- C9: each call of `next_queued_job_and_claim` runs entirely under
`JOBS_LOCK`, so it is one atomic step and any concurrent execution of
two claim calls equals one of the two sequential orders; over a store
with distinct ids (an invariant of every reachable store), the first
call leaves its claimed job `"running"` in the store, and the second
call never returns a job with the same id — no job is claimed by two
workers. -/
theorem claim_mutual_exclusion (s : State) (w1 w2 : String) (t1 t2 : Nat)
    (hnodup : (s.map Job.id).Nodup) (j1 : Job)
    (h1 : (next_queued_job_and_claim s w1 t1).2 = some j1) :
    (∃ jr ∈ (next_queued_job_and_claim s w1 t1).1,
      jr.id = j1.id ∧ jr.status = "running") ∧
    (∀ j2, (next_queued_job_and_claim
        (next_queued_job_and_claim s w1 t1).1 w2 t2).2 = some j2 →
      j2.id ≠ j1.id) := by
  obtain ⟨pre, j, post, hl, hpre, hjq, hje, hfst⟩ :=
    claimScan_eq_some w1 t1 s j1 h1
  have hmid : ∀ k, k ∈ pre ∨ k ∈ post → k.id ≠ j.id :=
    nodup_mid_id pre j post (by rw [hl] at hnodup; exact hnodup)
  constructor
  · refine ⟨claimedJob w1 t1 j, ?_, ?_, rfl⟩
    · show claimedJob w1 t1 j ∈ (claimScan w1 t1 s).1
      rw [hfst]
      exact List.mem_append_right _ (by simp)
    · rw [hje]
  · intro j2 h2
    obtain ⟨pre2, k, post2, hl2, hpre2, hkq, hke, hfst2⟩ :=
      claimScan_eq_some w2 t2 _ j2 h2
    have hkmem : k ∈ (next_queued_job_and_claim s w1 t1).1 := by
      rw [hl2]
      exact List.mem_append_right _ (by simp)
    rw [show (next_queued_job_and_claim s w1 t1).1 = (claimScan w1 t1 s).1
      from rfl, hfst] at hkmem
    have hkne : k ≠ claimedJob w1 t1 j := by
      intro he
      rw [he] at hkq
      simp [claimedJob] at hkq
    have hkside : k ∈ pre ∨ k ∈ post := by
      rcases List.mem_append.mp hkmem with hk | hk
      · exact Or.inl hk
      · rcases List.mem_cons.mp hk with hk | hk
        · exact absurd hk hkne
        · exact Or.inr hk
    have : j2.id = k.id := by rw [hke]; rfl
    rw [this, hje]
    show k.id ≠ (claimedJob w1 t1 j).id
    rw [claimedJob_id]
    exact hmid k hkside

theorem claim_mutual_exclusion_witness :
    (⟨"j2", "q", [], "running", 0, some 2, none, none, some "w2",
      none⟩ : Job).id ≠
      (⟨"j1", "p", [], "running", 0, some 1, none, none, some "w1",
        none⟩ : Job).id :=
  (claim_mutual_exclusion
    [⟨"j1", "p", [], "queued", 0, none, none, none, none, none⟩,
     ⟨"j2", "q", [], "queued", 0, none, none, none, none, none⟩]
    "w1" "w2" 1 2 (by decide)
    ⟨"j1", "p", [], "running", 0, some 1, none, none, some "w1", none⟩
    (by decide)).2
    ⟨"j2", "q", [], "running", 0, some 2, none, none, some "w2", none⟩
    (by decide)

theorem libraryScan_names (rand : Nat → ℚ) (n : Nat)
    (lib : List (String × String)) (p : String) :
    (libraryScan rand n lib p).map SceneObject.name =
      (lib.filter (fun kv => occursIn kv.1 p)).map Prod.snd := by
  induction lib generalizing n with
  | nil => rfl
  | cons kv rest ih =>
    obtain ⟨kw, name⟩ := kv
    by_cases hk : occursIn kw p <;>
      simp [libraryScan, hk, ih]

theorem libraryScan_rotation (rand : Nat → ℚ) (n : Nat)
    (lib : List (String × String)) (p : String) :
    ∀ o ∈ libraryScan rand n lib p, o.rotation = (0, 0, 0) := by
  induction lib generalizing n with
  | nil => simp [libraryScan]
  | cons kv rest ih =>
    obtain ⟨kw, name⟩ := kv
    by_cases hk : occursIn kw p
    · simp only [libraryScan, if_pos hk]
      intro o ho
      rcases List.mem_cons.mp ho with rfl | ho
      · rfl
      · exact ih (n + 2) o ho
    · simp only [libraryScan, if_neg hk]
      exact ih n

/-- C10: the prompt heuristic never returns an empty list; when no
library keyword occurs in the lowercased prompt it returns exactly one
`"cube"` at position `[0,0,0]` with rotation `[0,0,0]`; when keywords
occur, the returned names are exactly the mapped names of the occurring
keywords in library order (one object per occurring keyword) and every
returned object has rotation `[0,0,0]`. -/
theorem prompt_heuristic_objects (rand : Nat → ℚ) (prompt : String) :
    generate_objects_from_prompt rand prompt ≠ [] ∧
    ((∀ kv ∈ object_library, occursIn kv.1 (pyLower prompt) = false) →
      generate_objects_from_prompt rand prompt =
        [⟨"cube", (0, 0, 0), (0, 0, 0)⟩]) ∧
    ((∃ kv ∈ object_library, occursIn kv.1 (pyLower prompt) = true) →
      (generate_objects_from_prompt rand prompt).map SceneObject.name =
        (object_library.filter
          (fun kv => occursIn kv.1 (pyLower prompt))).map Prod.snd ∧
      ∀ o ∈ generate_objects_from_prompt rand prompt,
        o.rotation = (0, 0, 0)) := by
  refine ⟨?_, ?_, ?_⟩
  · unfold generate_objects_from_prompt
    by_cases he :
        (libraryScan rand 0 object_library (pyLower prompt)).isEmpty <;>
      simp [he]
    exact List.isEmpty_eq_false.mp (by simp [he])
  · intro h
    have hnames := libraryScan_names rand 0 object_library (pyLower prompt)
    have hfil : object_library.filter
        (fun kv => occursIn kv.1 (pyLower prompt)) = [] :=
      List.filter_eq_nil_iff.mpr (fun kv hkv => by simp [h kv hkv])
    have hempty : libraryScan rand 0 object_library (pyLower prompt) = [] := by
      have := hnames
      rw [hfil] at this
      exact List.map_eq_nil_iff.mp this
    simp [generate_objects_from_prompt, hempty]
  · intro ⟨kv, hkv, hocc⟩
    have hnames := libraryScan_names rand 0 object_library (pyLower prompt)
    have hne : libraryScan rand 0 object_library (pyLower prompt) ≠ [] := by
      intro he
      rw [he] at hnames
      simp only [List.map_nil] at hnames
      have hfil := List.map_eq_nil_iff.mp hnames.symm
      have hmem : kv ∈ object_library.filter
          (fun kv => occursIn kv.1 (pyLower prompt)) :=
        List.mem_filter.mpr ⟨hkv, hocc⟩
      rw [hfil] at hmem
      simp at hmem
    have hgen : generate_objects_from_prompt rand prompt =
        libraryScan rand 0 object_library (pyLower prompt) := by
      unfold generate_objects_from_prompt
      simp [List.isEmpty_eq_false.mpr hne]
    rw [hgen]
    exact ⟨hnames, libraryScan_rotation rand 0 object_library (pyLower prompt)⟩

theorem prompt_heuristic_objects_witness :
    generate_objects_from_prompt (fun _ => 0) "hello" =
      [⟨"cube", (0, 0, 0), (0, 0, 0)⟩] :=
  (prompt_heuristic_objects (fun _ => 0) "hello").2.1 (by decide)

theorem applyOp_not_queued (s : State) (op : Op) (hw : opWF s op)
    (j : Job) (hj : j ∈ s) (hstat : j.status ≠ "queued") :
    ∃ j' ∈ applyOp s op, j'.id = j.id ∧ j'.status ≠ "queued" := by
  cases op with
  | create job_id prompt meta t =>
    have hfresh : ∀ k ∈ s, k.id ≠ job_id := (getJob_eq_none s job_id).mp hw
    have hput := putJob_fresh s
      ⟨job_id, prompt, meta, "queued", t, none, none, none, none, none⟩
      (by intro k hk; exact hfresh k hk)
    exact ⟨j, by simp [applyOp, new_job, hput, hj], rfl, hstat⟩
  | claim worker_id t =>
    exact ⟨j, claimScan_mem_of_not_queued worker_id t s j hj hstat,
      rfl, hstat⟩
  | completeFile job_id orig t =>
    cases hg : getJob s job_id with
    | none => exact ⟨j, by simp [applyOp, job_complete, hg, hj], rfl, hstat⟩
    | some k =>
      refine ⟨if j.id = job_id then
        markDone (job_id ++ "__" ++ secure_filename orig) job_id t j
        else j, ?_, ?_, ?_⟩
      · simp only [applyOp, job_complete, hg, update_job_done]
        exact mutateJob_mem_of_mem hj
      · by_cases hid : j.id = job_id
        · rw [if_pos hid]
          rfl
        · rw [if_neg hid]
      · by_cases hid : j.id = job_id
        · rw [if_pos hid]
          show ("done" : String) ≠ "queued"
          decide
        · rw [if_neg hid]
          exact hstat
  | completeUrl job_id murl t =>
    cases hg : getJob s job_id with
    | none => exact ⟨j, by simp [applyOp, job_complete, hg, hj], rfl, hstat⟩
    | some k =>
      cases murl with
      | none => exact ⟨j, by simp [applyOp, job_complete, hg, hj],
          rfl, hstat⟩
      | some u =>
        by_cases hu : u = ""
        · exact ⟨j, by simp [applyOp, job_complete, hg, hu, hj],
            rfl, hstat⟩
        · refine ⟨if j.id = job_id then markUrlDone u t j else j,
            ?_, ?_, ?_⟩
          · simp only [applyOp, job_complete, hg, if_neg hu]
            exact mutateJob_mem_of_mem hj
          · by_cases hid : j.id = job_id
            · rw [if_pos hid]
              rfl
            · rw [if_neg hid]
          · by_cases hid : j.id = job_id
            · rw [if_pos hid]
              show ("done" : String) ≠ "queued"
              decide
            · rw [if_neg hid]
              exact hstat
  | fail job_id msg t =>
    cases hg : getJob s job_id with
    | none => exact ⟨j, by simp [applyOp, update_job_failed, hg, hj],
        rfl, hstat⟩
    | some k =>
      refine ⟨if j.id = job_id then markFailed msg t j else j, ?_, ?_, ?_⟩
      · simp only [applyOp, update_job_failed, hg]
        exact mutateJob_mem_of_mem hj
      · by_cases hid : j.id = job_id
        · rw [if_pos hid]
          rfl
        · rw [if_neg hid]
      · by_cases hid : j.id = job_id
        · rw [if_pos hid]
          show ("failed" : String) ≠ "queued"
          decide
        · rw [if_neg hid]
          exact hstat

/-- C1 as stated is false on the code: a job whose status is `"done"`
does change status again.  On the well-formed trace create → claim →
complete-with-url the job is `"done"`; applying the fail operation to it
afterwards makes it `"failed"`. -/
theorem done_job_changes_status :
    TraceWF [] [Op.create "j1" "p" [] 0, Op.claim "w1" 1,
      Op.completeUrl "j1" (some "http://m") 2, Op.fail "j1" "boom" 3] ∧
    (getJob (run [] [Op.create "j1" "p" [] 0, Op.claim "w1" 1,
      Op.completeUrl "j1" (some "http://m") 2]) "j1").map Job.status =
      some "done" ∧
    (getJob (run [] [Op.create "j1" "p" [] 0, Op.claim "w1" 1,
      Op.completeUrl "j1" (some "http://m") 2, Op.fail "j1" "boom" 3])
        "j1").map Job.status = some "failed" := by
  refine ⟨by decide, rfl, rfl⟩

/-- C1 (amended): on every well-formed operation sequence, a job that
has left `"queued"` (in particular a claimed job) never returns to
`"queued"`: the claim as stated fails only in that `"done"`/`"failed"`
jobs can still flip between the two terminal statuses, because
completion and failure apply to any existing job. -/
theorem claimed_job_never_requeued (s : State) (ops : List Op)
    (h : TraceWF s ops) (j : Job) (hj : j ∈ s)
    (hstat : j.status ≠ "queued") :
    ∃ j' ∈ run s ops, j'.id = j.id ∧ j'.status ≠ "queued" := by
  induction ops generalizing s j with
  | nil => exact ⟨j, hj, rfl, hstat⟩
  | cons op ops ih =>
    obtain ⟨j1, hj1, hid1, hst1⟩ := applyOp_not_queued s op h.1 j hj hstat
    obtain ⟨j2, hj2, hid2, hst2⟩ := ih (applyOp s op) h.2 j1 hj1 hst1
    exact ⟨j2, hj2, hid2.trans hid1, hst2⟩

theorem claimed_job_never_requeued_witness :
    ∃ j' ∈ run
        [⟨"j1", "p", [], "running", 0, some 1, none, none, some "w1",
          none⟩] [Op.fail "j1" "boom" 3],
      j'.id = (⟨"j1", "p", [], "running", 0, some 1, none, none,
        some "w1", none⟩ : Job).id ∧ j'.status ≠ "queued" :=
  claimed_job_never_requeued
    [⟨"j1", "p", [], "running", 0, some 1, none, none, some "w1", none⟩]
    [Op.fail "j1" "boom" 3] (by decide)
    ⟨"j1", "p", [], "running", 0, some 1, none, none, some "w1", none⟩
    (by decide) (by decide)

/-- C2 as stated is false on the code: after create → claim →
complete-with-url → fail, the job's status is `"failed"` while `result`
is still set (`update_job_failed` does not clear it), so "`result` is
set if and only if status is `done`" fails in the only-if direction. -/
theorem failed_job_keeps_result :
    TraceWF [] [Op.create "j1" "p" [] 0, Op.claim "w1" 1,
      Op.completeUrl "j1" (some "http://m") 2, Op.fail "j1" "boom" 3] ∧
    (getJob (run [] [Op.create "j1" "p" [] 0, Op.claim "w1" 1,
      Op.completeUrl "j1" (some "http://m") 2, Op.fail "j1" "boom" 3])
        "j1").map (fun j => (j.status, j.result.isSome)) =
      some ("failed", true) := by
  refine ⟨by decide, rfl⟩

/-- C2 (amended): on every reachable store, if a job's status is
`"done"` then `result` is set, and if it is `"failed"` then `error` is
set; the converses fail because a later fail (resp. completion) flips
the status while leaving `result` (resp. `error`) in place. -/
theorem done_has_result_failed_has_error (s : State) (h : Reachable s) :
    ∀ j ∈ s, (j.status = "done" → j.result.isSome) ∧
      (j.status = "failed" → j.error.isSome) := by
  have hs := reachable_stateWF s h
  intro j hj
  exact ⟨(hs.2 j hj).2.2.1, (hs.2 j hj).2.2.2.1⟩

theorem done_has_result_failed_has_error_witness :
    ((⟨"j1", "p", [], "done", 0, some 1, some 2, some ⟨none, "http://m"⟩,
        some "w1", none⟩ : Job).status = "done" →
      (⟨"j1", "p", [], "done", 0, some 1, some 2, some ⟨none, "http://m"⟩,
        some "w1", none⟩ : Job).result.isSome) ∧
    ((⟨"j1", "p", [], "done", 0, some 1, some 2, some ⟨none, "http://m"⟩,
        some "w1", none⟩ : Job).status = "failed" →
      (⟨"j1", "p", [], "done", 0, some 1, some 2, some ⟨none, "http://m"⟩,
        some "w1", none⟩ : Job).error.isSome) :=
  done_has_result_failed_has_error
    (run [] [Op.create "j1" "p" [] 0, Op.claim "w1" 1,
      Op.completeUrl "j1" (some "http://m") 2])
    ⟨[Op.create "j1" "p" [] 0, Op.claim "w1" 1,
      Op.completeUrl "j1" (some "http://m") 2], by decide, rfl⟩
    ⟨"j1", "p", [], "done", 0, some 1, some 2, some ⟨none, "http://m"⟩,
      some "w1", none⟩ (by decide)

theorem traceWF_append (s : State) (ops ops' : List Op) :
    TraceWF s (ops ++ ops') ↔
      TraceWF s ops ∧ TraceWF (run s ops) ops' := by
  induction ops generalizing s with
  | nil => simp [TraceWF, run]
  | cons op ops ih =>
    show opWF s op ∧ TraceWF (applyOp s op) (ops ++ ops') ↔ _
    rw [ih (applyOp s op)]
    show _ ↔ (opWF s op ∧ TraceWF (applyOp s op) ops) ∧
      TraceWF (run (applyOp s op) ops) ops'
    rw [and_assoc]

/-- C3: over every well-formed trace from the empty store,
`worker_id` and `started_at` are set on a job exactly when the claim
operation has claimed that job's id during the trace (the trace's
claimed-id list), and once set they remain set under any well-formed
continuation of the trace. -/
theorem worker_binding_iff_claimed (ops : List Op)
    (h : TraceWF [] ops) :
    (∀ j ∈ (runClaimed ([], []) ops).1,
      (j.worker_id.isSome ↔ j.id ∈ (runClaimed ([], []) ops).2) ∧
      (j.started_at.isSome ↔ j.id ∈ (runClaimed ([], []) ops).2)) ∧
    (∀ ops', TraceWF [] (ops ++ ops') →
      ∀ j ∈ (runClaimed ([], []) ops).1, j.worker_id.isSome →
        ∃ j' ∈ (runClaimed ([], []) (ops ++ ops')).1,
          j'.id = j.id ∧ j'.worker_id.isSome ∧
          j'.started_at.isSome) := by
  have hci := claimedInv_runClaimed ops [] [] stateWF_nil
    ⟨by simp, by simp⟩ h
  have hwf : StateWF (runClaimed ([], []) ops).1 := by
    rw [runClaimed_fst]
    exact stateWF_run [] ops stateWF_nil h
  constructor
  · intro j hj
    have h1 := hci.1 j hj
    have h2 := (hwf.2 j hj).2.2.2.2
    exact ⟨h1, h2.symm.trans h1⟩
  · intro ops' hwf' j hj hwk
    have hidc : j.id ∈ (runClaimed ([], []) ops).2 := (hci.1 j hj).mp hwk
    have htr : TraceWF (run [] ops) ops' :=
      ((traceWF_append [] ops ops').mp hwf').2
    have htr2 : TraceWF (runClaimed ([], []) ops).1 ops' := by
      rw [runClaimed_fst]
      exact htr
    have hci2 : ClaimedInv
        (runClaimed (runClaimed ([], []) ops) ops').1
        (runClaimed (runClaimed ([], []) ops) ops').2 :=
      claimedInv_runClaimed ops' (runClaimed ([], []) ops).1
        (runClaimed ([], []) ops).2 hwf hci htr2
    have hmono : j.id ∈ (runClaimed (runClaimed ([], []) ops) ops').2 := by
      show j.id ∈ (runClaimed ((runClaimed ([], []) ops).1,
        (runClaimed ([], []) ops).2) ops').2
      rw [runClaimed_acc ops' (runClaimed ([], []) ops).1
        (runClaimed ([], []) ops).2]
      exact List.mem_append_left _ hidc
    obtain ⟨j', hj'm, hj'id⟩ := hci2.2 j.id hmono
    have hwf2 : StateWF (runClaimed (runClaimed ([], []) ops) ops').1 := by
      show StateWF (runClaimed ((runClaimed ([], []) ops).1,
        (runClaimed ([], []) ops).2) ops').1
      rw [runClaimed_fst, runClaimed_fst]
      exact stateWF_run (run [] ops) ops'
        (stateWF_run [] ops stateWF_nil
          ((traceWF_append [] ops ops').mp hwf').1) htr
    have hw' : j'.worker_id.isSome := (hci2.1 j' hj'm).mpr
      (by rw [hj'id]; exact hmono)
    have hs' : j'.started_at.isSome := ((hwf2.2 j' hj'm).2.2.2.2).mp hw'
    rw [runClaimed_append ops ops' ([], [])]
    exact ⟨j', hj'm, hj'id, hw', hs'⟩

theorem worker_binding_iff_claimed_witness :
    ((⟨"j1", "p", [], "done", 0, some 1, some 2, some ⟨none, "http://m"⟩,
        some "w1", none⟩ : Job).worker_id.isSome ↔
      (⟨"j1", "p", [], "done", 0, some 1, some 2, some ⟨none, "http://m"⟩,
        some "w1", none⟩ : Job).id ∈
        (runClaimed ([], []) [Op.create "j1" "p" [] 0, Op.claim "w1" 1,
          Op.completeUrl "j1" (some "http://m") 2]).2) ∧
    ((⟨"j1", "p", [], "done", 0, some 1, some 2, some ⟨none, "http://m"⟩,
        some "w1", none⟩ : Job).started_at.isSome ↔
      (⟨"j1", "p", [], "done", 0, some 1, some 2, some ⟨none, "http://m"⟩,
        some "w1", none⟩ : Job).id ∈
        (runClaimed ([], []) [Op.create "j1" "p" [] 0, Op.claim "w1" 1,
          Op.completeUrl "j1" (some "http://m") 2]).2) :=
  (worker_binding_iff_claimed [Op.create "j1" "p" [] 0, Op.claim "w1" 1,
      Op.completeUrl "j1" (some "http://m") 2] (by decide)).1
    ⟨"j1", "p", [], "done", 0, some 1, some 2, some ⟨none, "http://m"⟩,
      some "w1", none⟩ (by decide)
